import Mathlib

/-!
Verification of the landmark heatmap pipeline of the cephalometric backend
(`backend/app/ml/train.py` and `backend/app/ml/predictor.py`).

The Python source is embedded shallowly:
* float arithmetic is embedded as exact arithmetic (`ℚ` for the inputs the
  program manipulates symbolically, `ℝ` where the code applies `exp`, `sqrt`,
  `cos`, `sin`);
* NumPy / PyTorch reductions (`argmax` on the row-major flattening) are
  embedded by an explicit first-maximum scan;
* values of an IEEE double that are not finite are modelled by the inductive
  type `FVal`; the NaN produced by `np.mean` of an empty list is modelled by
  `Option` (`none` = NaN).
-/

namespace Ceph

/-- NUM_LANDMARKS = 19 in train.py and predictor.py. -/
def NUM_LANDMARKS : ℕ := 19

/-- Thresholds of the SDR loop in `evaluate_model`: `for threshold in [2, 4, 10, 20]`. -/
def SDR_THRESHOLDS : List ℕ := [2, 4, 10, 20]

/-! ## Heatmap encoding (`CephalometricDataset._generate_heatmap`) -/

/-- Squared distance from grid cell `(i, j)` (column `i`, row `j`) to the
landmark coordinate `(x, y)`: the quantity `(xx - x)**2 + (yy - y)**2`
appearing in `_generate_heatmap`. -/
def sqDist (x y : ℚ) (i j : ℕ) : ℚ := ((i : ℚ) - x) ^ 2 + ((j : ℚ) - y) ^ 2

/-- Value of the Gaussian heatmap of `CephalometricDataset._generate_heatmap`
at grid cell `(i, j)` (column `i` along the width, row `j` along the height):
`np.exp(-((xx - x) ** 2 + (yy - y) ** 2) / (2 * self.sigma ** 2))`
where `xx, yy = np.meshgrid(np.arange(width), np.arange(height))`.
The landmark coordinate `(x, y)` and the spread `sigma` are float parameters,
embedded as rationals; the stored value is a real number. -/
noncomputable def heatmapVal (sigma x y : ℚ) (i j : ℕ) : ℝ :=
  Real.exp (-(((i : ℝ) - (x : ℝ)) ^ 2 + ((j : ℝ) - (y : ℝ)) ^ 2) / (2 * (sigma : ℝ) ^ 2))

/-! ## Heatmap decoding (`LandmarkPredictor.heatmap_to_coordinates`,
and the identical argmax extraction in `evaluate_model`) -/

/-- Row-major flat index of the cell `(column, row) = (p.1, p.2)` in a grid of
width `w`.  This is the flattening inverted by the decoder through
`y_pred = max_idx // w; x_pred = max_idx % w`. -/
def rmIndex (w : ℕ) (p : ℕ × ℕ) : ℕ := p.2 * w + p.1

/-- `p` is the cell the decoder's argmax selects on the `w × h` grid whose
value at column `i`, row `j` is `f i j`: it attains the maximum and, among all
maximising cells, has the least row-major flat index.  (NumPy's and PyTorch's
`argmax` both return the first maximal entry of the row-major flattening.) -/
def IsFirstArgmax (w h : ℕ) (f : ℕ → ℕ → ℝ) (p : ℕ × ℕ) : Prop :=
  p.1 < w ∧ p.2 < h ∧
    (∀ i j, i < w → j < h → f i j ≤ f p.1 p.2) ∧
    (∀ i j, i < w → j < h → f i j = f p.1 p.2 → rmIndex w p ≤ rmIndex w (i, j))

/-- First-maximum scan over a list with respect to the strict comparison `lt`:
returns the index and value of the first maximal element, i.e. the behaviour
of `Tensor.argmax` / `np.argmax` on the flattened array (together with the
corresponding `max` value the decoder reports as confidence). -/
def scanMax (lt : α → α → Bool) : List α → Option (ℕ × α)
  | [] => none
  | a :: rest =>
    match scanMax lt rest with
    | none => some (0, a)
    | some (k, v) => if lt a v then some (k + 1, v) else some (0, a)

/-- Width of a grid given as a list of rows, read off as the length of the
first row (the decoder reads it off the tensor shape). -/
def gridWidth (g : List (List α)) : ℕ := (g.headD []).length

/-- Per-landmark core of `LandmarkPredictor.heatmap_to_coordinates` (the same
extraction is performed in `evaluate_model` via `np.unravel_index(argmax)`):
flatten the grid row-major, take the first argmax, and return
`((x_pred, y_pred), max_val)` with `y_pred = max_idx // w`,
`x_pred = max_idx % w`.  The comparison `lt` is a parameter so that the same
definition covers grids of exact rationals and grids of `FVal` doubles.  On a
grid of zero area the flattening is empty and no result is produced (`none`):
the underlying `max`/`argmax` reduction of an empty tensor fails. -/
def heatmap_to_coordinates (lt : α → α → Bool) (g : List (List α)) :
    Option ((ℕ × ℕ) × α) :=
  match scanMax lt g.flatten with
  | none => none
  | some (k, v) => some ((k % gridWidth g, k / gridWidth g), v)

/-- Strict order on exact rationals: the comparison driving the argmax scan on
a grid of ordinary finite float values. -/
def ltq (a b : ℚ) : Bool := decide (a < b)

/-- The value stored at column `x`, row `y` of a grid given as a list of rows. -/
def cellAt (g : List (List α)) (x y : ℕ) : Option α :=
  g[y]?.bind (fun r => r[x]?)

/-- An IEEE-754 double as the decoder sees it: a finite value (embedded as an
exact rational), `nan`, or one of the signed infinities. -/
inductive FVal where
  | finite : ℚ → FVal
  | nan : FVal
  | inf : FVal
  | neginf : FVal
deriving DecidableEq

/-- The strict "replace the running maximum" comparison of the PyTorch
`max`/`argmax` reduction on doubles: finite values compare numerically,
`-inf` is below everything else, `inf` above every finite value, and NaN
propagates — a NaN candidate replaces any non-NaN running maximum and is never
replaced (so the first NaN wins the reduction). -/
def FVal.lt : FVal → FVal → Bool
  | FVal.nan, _ => false
  | _, FVal.nan => true
  | FVal.neginf, FVal.neginf => false
  | FVal.neginf, _ => true
  | _, FVal.neginf => false
  | FVal.inf, _ => false
  | FVal.finite _, FVal.inf => true
  | FVal.finite p, FVal.finite q => decide (p < q)

/-- Index of the grid cell nearest to coordinate `x` on an axis of `w` cells:
round half up, clamped into `[0, w - 1]`. -/
def nearestIdx (x : ℚ) (w : ℕ) : ℕ := min (w - 1) (Int.toNat ⌊x + 1 / 2⌋)

/-! ## Dataset splitting (`split_annotations` in train.py) -/

/-- `split_annotations` of train.py, as its effect on the ordered key list.
`random.seed(seed); random.shuffle(keys)` is modelled by an explicit
deterministic `shuffle` function — the permutation the seeded PRNG applies to
the key list.  `int(n_total * ratio)` truncates a non-negative float, i.e.
`Int.toNat ⌊n * ratio⌋` on exact arithmetic, and the three Python slices
`keys[:n_train]`, `keys[n_train:n_train + n_val]`, `keys[n_train + n_val:]`
become `take`/`drop`.  There is no branch for small inputs: every list is
split by the same arithmetic. -/
def split_annotations (shuffle : List α → List α) (items : List α)
    (train_r val_r : ℚ) : List α × List α × List α :=
  let keys := shuffle items
  let n_total := keys.length
  let n_train := Int.toNat ⌊(n_total : ℚ) * train_r⌋
  let n_val := Int.toNat ⌊(n_total : ℚ) * val_r⌋
  (keys.take n_train, (keys.drop n_train).take n_val, keys.drop (n_train + n_val))

/-! ## Augmentation (`CephalometricDataset._apply_augmentation`),
restricted to its effect on one landmark coordinate: brightness and contrast
(steps 3 and 4) do not touch landmarks. -/

/-- The random draws consumed by `_apply_augmentation`, together with the
configuration tests that decide whether each randomized step fires:
`rotate` is `cfg["rotation_range"] > 0`, `angleRad` the drawn rotation angle
converted to radians, `scaleStep` is `cfg["scale_range"] != (1.0, 1.0)`,
`scale` the drawn scale factor, and `flip` records whether
`random.random() < cfg["horizontal_flip_prob"]` fired. -/
structure AugDraws where
  rotate : Bool
  angleRad : ℝ
  scaleStep : Bool
  scale : ℝ
  flip : Bool

/-- The landmark map of the horizontal-flip step of `_apply_augmentation`:
`new_landmarks = [(orig_w - x, y) for x, y in new_landmarks]`. -/
noncomputable def flip_landmark (w : ℕ) (p : ℝ × ℝ) : ℝ × ℝ :=
  ((w : ℝ) - p.1, p.2)

/-- The final clamping step of `_apply_augmentation`:
`(max(0, min(orig_w - 1, x)), max(0, min(orig_h - 1, y)))`. -/
noncomputable def clamp_landmark (w h : ℕ) (p : ℝ × ℝ) : ℝ × ℝ :=
  (max 0 (min ((w : ℝ) - 1) p.1), max 0 (min ((h : ℝ) - 1) p.2))

/-- Effect of `CephalometricDataset._apply_augmentation` on one landmark
coordinate, for original image size `orig_w × orig_h` and draws `d`:
rotation about the image centre using the negated angle
(`rad = np.radians(-angle)`), then the scale step (`int()` truncation of the
scaled size and integer `// 2` for the crop/pad offset), then the horizontal
flip, then the unconditional clamp into `[0, w - 1] × [0, h - 1]`. -/
noncomputable def augment_landmark (w h : ℕ) (d : AugDraws) (p : ℝ × ℝ) : ℝ × ℝ :=
  let p1 :=
    if d.rotate then
      let cx : ℝ := (w : ℝ) / 2
      let cy : ℝ := (h : ℝ) / 2
      let cos_a : ℝ := Real.cos (-d.angleRad)
      let sin_a : ℝ := Real.sin (-d.angleRad)
      (cos_a * (p.1 - cx) - sin_a * (p.2 - cy) + cx,
        sin_a * (p.1 - cx) + cos_a * (p.2 - cy) + cy)
    else p
  let p2 :=
    if d.scaleStep then
      let new_w : ℤ := ⌊(w : ℝ) * d.scale⌋
      let new_h : ℤ := ⌊(h : ℝ) * d.scale⌋
      if 1 < d.scale then
        let left : ℤ := (new_w - (w : ℤ)) / 2
        let top : ℤ := (new_h - (h : ℤ)) / 2
        (p1.1 * d.scale - (left : ℝ), p1.2 * d.scale - (top : ℝ))
      else
        let left : ℤ := ((w : ℤ) - new_w) / 2
        let top : ℤ := ((h : ℤ) - new_h) / 2
        (p1.1 * d.scale + (left : ℝ), p1.2 * d.scale + (top : ℝ))
    else p1
  let p3 := if d.flip then flip_landmark w p2 else p2
  clamp_landmark w h p3

/-! ## Evaluation metrics (the metrics block of `evaluate_model`) -/

/-- One ground-truth/prediction pair of `evaluate_model`: the 0-based landmark
index `i` of the loop `for i in range(NUM_LANDMARKS)` and the integer argmax
cells of the ground-truth and predicted heatmaps. -/
structure EvalSample where
  landmark : ℕ
  gt_x : ℤ
  gt_y : ℤ
  pred_x : ℤ
  pred_y : ℤ

/-- The per-sample radial error of `evaluate_model`:
`np.sqrt((pred_x - gt_x) ** 2 + (pred_y - gt_y) ** 2)`. -/
noncomputable def radialError (s : EvalSample) : ℝ :=
  Real.sqrt ((((s.pred_x - s.gt_x) ^ 2 + (s.pred_y - s.gt_y) ^ 2 : ℤ) : ℝ))

/-- `np.mean` of a list of doubles: the arithmetic mean, except that the mean
of an empty list is NaN (with a runtime warning, not an exception), modelled
as `none`. -/
noncomputable def npMean (l : List ℝ) : Option ℝ :=
  match l with
  | [] => none
  | _ => some (l.sum / l.length)

/-- `np.std` of a list of doubles (population standard deviation, `ddof = 0`);
NaN on the empty list, modelled as `none`. -/
noncomputable def npStd (l : List ℝ) : Option ℝ :=
  match l with
  | [] => none
  | _ => some (Real.sqrt ((l.map (fun e => (e - l.sum / l.length) ^ 2)).sum / l.length))

/-- The metrics dictionary compiled at the end of `evaluate_model`:
`mre`, `std`, `sdr_<t>px` for each threshold, and `per_landmark_mre`.
Values that the NumPy computation turns into NaN are `none`. -/
structure MetricsReport where
  mre : Option ℝ
  std : Option ℝ
  sdr : List (ℕ × Option ℝ)
  per_landmark_mre : List (ℕ × Option ℝ)

/-- The metrics block of `evaluate_model`, over the list of collected
ground-truth/prediction samples: `total_errors` is the list of radial errors
in loop order, `landmark_errors[i]` the sub-list of errors of landmark `i`
(the loop initialises a bucket for every `i in range(NUM_LANDMARKS)` and
appends in order, which is the order-preserving filter); then
`mre = np.mean(total_errors)`, `std = np.std(total_errors)`,
`sdr_tpx = np.mean(np.array(total_errors) < t) * 100`, and
`per_landmark_mre = {i: np.mean(errors) for i, errors in landmark_errors.items()}`
whose keys are exactly `0 .. NUM_LANDMARKS - 1`. -/
noncomputable def evaluate_metrics (samples : List EvalSample) : MetricsReport :=
  let total_errors := samples.map radialError
  { mre := npMean total_errors
    std := npStd total_errors
    sdr := SDR_THRESHOLDS.map (fun t =>
      (t, (npMean (total_errors.map (fun e => if e < (t : ℝ) then (1 : ℝ) else 0))).map
        (fun m => m * 100)))
    per_landmark_mre := (List.range NUM_LANDMARKS).map (fun i =>
      (i, npMean ((samples.filter (fun s => s.landmark = i)).map radialError))) }

/-! ## Helper lemmas -/

theorem scanMax_eq_none_iff (lt : α → α → Bool) (l : List α) :
    scanMax lt l = none ↔ l = [] := by
  cases l with
  | nil => simp [scanMax]
  | cons a rest =>
    rw [scanMax]
    cases h : scanMax lt rest with
    | none => simp
    | some kv =>
      obtain ⟨k, v⟩ := kv
      by_cases hlt : lt a v = true
      · simp [hlt]
      · simp [hlt]

theorem scanMax_ltq_spec :
    ∀ (l : List ℚ) (k : ℕ) (v : ℚ), scanMax ltq l = some (k, v) →
      l[k]? = some v ∧ (∀ (m : ℕ) (u : ℚ), l[m]? = some u → u ≤ v) ∧
        (∀ (m : ℕ) (u : ℚ), l[m]? = some u → u = v → k ≤ m) := by
  intro l
  induction l with
  | nil => intro k v h; simp [scanMax] at h
  | cons a rest ih =>
    intro k v h
    rw [scanMax] at h
    cases hr : scanMax ltq rest with
    | none =>
      rw [hr] at h
      replace h : some (0, a) = some (k, v) := h
      have hrest : rest = [] := (scanMax_eq_none_iff _ _).mp hr
      subst hrest
      simp only [Option.some.injEq, Prod.mk.injEq] at h
      obtain ⟨hk, hv⟩ := h
      subst hk hv
      refine ⟨by simp, ?_, ?_⟩
      · intro m u hm
        cases m with
        | zero => simp at hm; subst hm; exact le_refl _
        | succ m' => simp at hm
      · intro m u hm hu
        exact Nat.zero_le _
    | some kv =>
      obtain ⟨k', v'⟩ := kv
      rw [hr] at h
      replace h : (if ltq a v' = true then some (k' + 1, v') else some (0, a)) = some (k, v) := h
      obtain ⟨hget, hmax, hfirst⟩ := ih k' v' hr
      by_cases hlt : ltq a v' = true
      · rw [if_pos hlt] at h
        simp only [Option.some.injEq, Prod.mk.injEq] at h
        obtain ⟨hk, hv⟩ := h
        subst hk hv
        have hav : a < v' := by simpa [ltq] using hlt
        refine ⟨by simpa using hget, ?_, ?_⟩
        · intro m u hm
          cases m with
          | zero => simp at hm; subst hm; exact le_of_lt hav
          | succ m' => exact hmax m' u (by simpa using hm)
        · intro m u hm hu
          cases m with
          | zero =>
            simp at hm
            subst hm
            exact absurd hu (ne_of_lt hav)
          | succ m' => exact Nat.succ_le_succ (hfirst m' u (by simpa using hm) hu)
      · rw [if_neg hlt] at h
        simp only [Option.some.injEq, Prod.mk.injEq] at h
        obtain ⟨hk, hv⟩ := h
        subst hk hv
        have hva : v' ≤ a := by
          have hnlt : ¬(a < v') := by simpa [ltq] using hlt
          exact le_of_not_lt hnlt
        refine ⟨by simp, ?_, ?_⟩
        · intro m u hm
          cases m with
          | zero => simp at hm; subst hm; exact le_refl _
          | succ m' => exact le_trans (hmax m' u (by simpa using hm)) hva
        · intro m u hm hu
          exact Nat.zero_le _

theorem flatten_length_rect {α : Type} (w : ℕ) :
    ∀ g : List (List α), (∀ r ∈ g, r.length = w) → g.flatten.length = g.length * w := by
  intro g
  induction g with
  | nil => intro _; simp
  | cons r tl ih =>
    intro hrect
    have hr : r.length = w := hrect r (by simp)
    have htl := ih (fun r' hr' => hrect r' (by simp [hr']))
    simp only [List.flatten_cons, List.length_append, List.length_cons, htl, hr]
    ring

theorem flatten_get_rect {α : Type} (w : ℕ) :
    ∀ (g : List (List α)) (i j : ℕ), (∀ r ∈ g, r.length = w) → i < w →
      g.flatten[j * w + i]? = cellAt g i j := by
  intro g
  induction g with
  | nil => intro i j _ _; simp [cellAt]
  | cons r tl ih =>
    intro i j hrect hi
    have hr : r.length = w := hrect r (by simp)
    cases j with
    | zero =>
      simp only [Nat.zero_mul, Nat.zero_add, List.flatten_cons]
      rw [List.getElem?_append_left (by omega)]
      simp [cellAt]
    | succ j' =>
      have hidx : (j' + 1) * w + i = r.length + (j' * w + i) := by rw [hr]; ring
      simp only [List.flatten_cons]
      rw [hidx, List.getElem?_append_right (by omega)]
      have : r.length + (j' * w + i) - r.length = j' * w + i := by omega
      rw [this, ih i j' (fun r' hr' => hrect r' (by simp [hr'])) hi]
      simp [cellAt]

theorem cellAt_bounds {α : Type} {g : List (List α)} {x y : ℕ} {v : α}
    (h : cellAt g x y = some v) :
    ∃ r, g[y]? = some r ∧ r[x]? = some v := by
  unfold cellAt at h
  cases hy : g[y]? with
  | none => rw [hy] at h; simp at h
  | some r => rw [hy] at h; exact ⟨r, rfl, by simpa using h⟩

theorem exists_first_argmin (w h : ℕ) (hw : 0 < w) (hh : 0 < h) (q : ℕ × ℕ → ℚ) :
    ∃ p : ℕ × ℕ, (p.1 < w ∧ p.2 < h) ∧
      (∀ i j, i < w → j < h → q p ≤ q (i, j)) ∧
      (∀ i j, i < w → j < h → q (i, j) = q p → rmIndex w p ≤ rmIndex w (i, j)) := by
  classical
  set S : Finset (ℕ × ℕ) := Finset.range w ×ˢ Finset.range h with hS
  have hSne : S.Nonempty := ⟨(0, 0), by simp [hS, hw, hh]⟩
  obtain ⟨b0, hb0, hmin0⟩ := Finset.exists_min_image S q hSne
  have hTne : (S.filter (fun c => q c = q b0)).Nonempty :=
    ⟨b0, by simp [Finset.mem_filter, hb0]⟩
  obtain ⟨b, hbT, hminT⟩ := Finset.exists_min_image _ (fun c => rmIndex w c) hTne
  rw [Finset.mem_filter] at hbT
  obtain ⟨hbS, hbq⟩ := hbT
  have hbS' : b.1 < w ∧ b.2 < h := by
    have := hbS
    rw [hS, Finset.mem_product, Finset.mem_range, Finset.mem_range] at this
    exact this
  refine ⟨b, hbS', ?_, ?_⟩
  · intro i j hi hj
    have hmem : (i, j) ∈ S := by simp [hS, hi, hj]
    calc q b = q b0 := hbq
      _ ≤ q (i, j) := hmin0 _ hmem
  · intro i j hi hj hqe
    have hmem : (i, j) ∈ S.filter (fun c => q c = q b0) := by
      rw [Finset.mem_filter]
      exact ⟨by simp [hS, hi, hj], by rw [hqe, hbq]⟩
    exact hminT _ hmem

theorem sqDist_nonneg (x y : ℚ) (i j : ℕ) : 0 ≤ sqDist x y i j := by
  unfold sqDist
  positivity

theorem heatmapVal_eq_exp (sigma x y : ℚ) (i j : ℕ) :
    heatmapVal sigma x y i j =
      Real.exp (-((sqDist x y i j : ℚ) : ℝ) / (2 * (sigma : ℝ) ^ 2)) := by
  unfold heatmapVal sqDist
  push_cast
  ring_nf

theorem heatmapVal_le_iff {sigma : ℚ} (x y : ℚ) (hs : sigma ≠ 0) (i j i' j' : ℕ) :
    heatmapVal sigma x y i j ≤ heatmapVal sigma x y i' j' ↔
      sqDist x y i' j' ≤ sqDist x y i j := by
  have hσ : (sigma : ℝ) ≠ 0 := by exact_mod_cast hs
  have hc : (0 : ℝ) < 2 * (sigma : ℝ) ^ 2 := by positivity
  rw [heatmapVal_eq_exp, heatmapVal_eq_exp, Real.exp_le_exp, div_le_div_right hc,
    neg_le_neg_iff, Rat.cast_le]

theorem heatmapVal_eq_iff {sigma : ℚ} (x y : ℚ) (hs : sigma ≠ 0) (i j i' j' : ℕ) :
    heatmapVal sigma x y i j = heatmapVal sigma x y i' j' ↔
      sqDist x y i j = sqDist x y i' j' := by
  rw [le_antisymm_iff, le_antisymm_iff, heatmapVal_le_iff x y hs,
    heatmapVal_le_iff x y hs]
  tauto

theorem floorCell_spec (x : ℚ) (w : ℕ) (hw : 0 < w) (hx0 : 0 ≤ x) (hxw : x < w) :
    Int.toNat ⌊x⌋ < w ∧ ((Int.toNat ⌊x⌋ : ℚ) - x) ^ 2 ≤ 1 := by
  have h0 : 0 ≤ ⌊x⌋ := Int.floor_nonneg.mpr hx0
  have hle : ((⌊x⌋ : ℤ) : ℚ) ≤ x := Int.floor_le _
  have hgt : x < ((⌊x⌋ : ℤ) : ℚ) + 1 := Int.lt_floor_add_one _
  have hfw : ⌊x⌋ < (w : ℤ) := Int.floor_lt.mpr (by exact_mod_cast hxw)
  constructor
  · omega
  · have hcast : ((Int.toNat ⌊x⌋ : ℕ) : ℚ) = ((⌊x⌋ : ℤ) : ℚ) := by
      exact_mod_cast Int.toNat_of_nonneg h0
    rw [hcast]
    nlinarith

theorem nearestIdx_spec (x : ℚ) (w : ℕ) (hw : 0 < w) (hx0 : 0 ≤ x) (hxw : x < w) :
    nearestIdx x w < w ∧
      ∀ i, i < w → ((nearestIdx x w : ℚ) - x) ^ 2 ≤ ((i : ℚ) - x) ^ 2 := by
  have h1 : (0 : ℚ) ≤ x + 1 / 2 := by linarith
  have hr0 : 0 ≤ ⌊x + 1 / 2⌋ := Int.floor_nonneg.mpr h1
  have hrle : ((⌊x + 1 / 2⌋ : ℤ) : ℚ) ≤ x + 1 / 2 := Int.floor_le _
  have hrgt : x + 1 / 2 < ((⌊x + 1 / 2⌋ : ℤ) : ℚ) + 1 := Int.lt_floor_add_one _
  have hwlt : nearestIdx x w < w := by
    have : nearestIdx x w ≤ w - 1 := min_le_left _ _
    omega
  refine ⟨hwlt, ?_⟩
  intro i hi
  by_cases hcase : ⌊x + 1 / 2⌋ < (w : ℤ)
  · have hni : nearestIdx x w = Int.toNat ⌊x + 1 / 2⌋ := by
      unfold nearestIdx
      omega
    have hcast : ((nearestIdx x w : ℕ) : ℚ) = ((⌊x + 1 / 2⌋ : ℤ) : ℚ) := by
      rw [hni]
      exact_mod_cast Int.toNat_of_nonneg hr0
    rw [hcast]
    by_cases hieq : (i : ℤ) = ⌊x + 1 / 2⌋
    · have heq : ((i : ℕ) : ℚ) = ((⌊x + 1 / 2⌋ : ℤ) : ℚ) := by exact_mod_cast hieq
      rw [heq]
    · have h3 : (1 : ℤ) ≤ |(i : ℤ) - ⌊x + 1 / 2⌋| := by
        rw [le_abs]
        omega
      have h5 : (((i : ℤ) - ⌊x + 1 / 2⌋ : ℤ) : ℚ) =
          ((i : ℕ) : ℚ) - ((⌊x + 1 / 2⌋ : ℤ) : ℚ) := by
        push_cast
        ring
      have hdist : (1 : ℚ) ≤ |((i : ℕ) : ℚ) - ((⌊x + 1 / 2⌋ : ℤ) : ℚ)| := by
        calc (1 : ℚ) ≤ |(((i : ℤ) - ⌊x + 1 / 2⌋ : ℤ) : ℚ)| := by
              rw [← Int.cast_abs]
              exact_mod_cast h3
          _ = _ := by rw [h5]
      have habs_r : |((⌊x + 1 / 2⌋ : ℤ) : ℚ) - x| ≤ 1 / 2 :=
        abs_le.mpr ⟨by linarith, by linarith⟩
      have htri : |((i : ℕ) : ℚ) - ((⌊x + 1 / 2⌋ : ℤ) : ℚ)| ≤
          |((i : ℕ) : ℚ) - x| + |x - ((⌊x + 1 / 2⌋ : ℤ) : ℚ)| := abs_sub_le _ _ _
      have hxr : |x - ((⌊x + 1 / 2⌋ : ℤ) : ℚ)| = |((⌊x + 1 / 2⌋ : ℤ) : ℚ) - x| :=
        abs_sub_comm _ _
      have hfin : |((⌊x + 1 / 2⌋ : ℤ) : ℚ) - x| ≤ |((i : ℕ) : ℚ) - x| := by
        rw [hxr] at htri
        linarith
      calc (((⌊x + 1 / 2⌋ : ℤ) : ℚ) - x) ^ 2
          = |((⌊x + 1 / 2⌋ : ℤ) : ℚ) - x| ^ 2 := (sq_abs _).symm
        _ ≤ |((i : ℕ) : ℚ) - x| ^ 2 := pow_le_pow_left (abs_nonneg _) hfin 2
        _ = (((i : ℕ) : ℚ) - x) ^ 2 := sq_abs _
  · push_neg at hcase
    have hni : nearestIdx x w = w - 1 := by
      unfold nearestIdx
      omega
    rw [hni]
    have hxlb : (w : ℚ) - 1 / 2 ≤ x := by
      have h5 : ((w : ℤ) : ℚ) ≤ ((⌊x + 1 / 2⌋ : ℤ) : ℚ) := by exact_mod_cast hcase
      push_cast at h5
      linarith
    have hcast : (((w - 1 : ℕ)) : ℚ) = (w : ℚ) - 1 := by
      have h6 : (1 : ℕ) ≤ w := hw
      push_cast [h6]
      ring
    rw [hcast]
    have hiq : ((i : ℕ) : ℚ) ≤ (w : ℚ) - 1 := by
      have h7 : (i : ℕ) + 1 ≤ w := hi
      have h8 : ((i : ℕ) : ℚ) + 1 ≤ (w : ℚ) := by exact_mod_cast h7
      linarith
    nlinarith

/-! ## Claims about the heatmap codec -/

/-- C1: Round trip of the heatmap codec.  For every grid size `w × h` with
positive area, every `sigma ≥ 1`, and every coordinate `(x, y)` inside
`[0, w) × [0, h)`, the heatmap written by `_generate_heatmap` has a
row-major-first argmax cell, and every such cell (the cell the decoder
returns) is within one grid cell of `(x, y)` in each axis. -/
theorem C1_round_trip (w h : ℕ) (sigma x y : ℚ) (hw : 0 < w) (hh : 0 < h)
    (hs : 1 ≤ sigma) (hx0 : 0 ≤ x) (hxw : x < w) (hy0 : 0 ≤ y) (hyh : y < h) :
    (∃ p, IsFirstArgmax w h (heatmapVal sigma x y) p) ∧
      ∀ p, IsFirstArgmax w h (heatmapVal sigma x y) p →
        |(p.1 : ℚ) - x| ≤ 1 ∧ |(p.2 : ℚ) - y| ≤ 1 := by
  have hs0 : sigma ≠ 0 := by
    intro hz
    rw [hz] at hs
    norm_num at hs
  constructor
  · obtain ⟨p, ⟨hp1, hp2⟩, hmin, htie⟩ :=
      exists_first_argmin w h hw hh (fun c => sqDist x y c.1 c.2)
    refine ⟨p, hp1, hp2, ?_, ?_⟩
    · intro i j hi hj
      exact (heatmapVal_le_iff x y hs0 i j p.1 p.2).mpr (hmin i j hi hj)
    · intro i j hi hj heq
      exact htie i j hi hj ((heatmapVal_eq_iff x y hs0 i j p.1 p.2).mp heq)
  · intro p hp
    obtain ⟨hp1, hp2, hmax, _⟩ := hp
    obtain ⟨hfxw, hfx1⟩ := floorCell_spec x w hw hx0 hxw
    obtain ⟨hfyh, hfy1⟩ := floorCell_spec y h hh hy0 hyh
    constructor
    · have h1 := hmax (Int.toNat ⌊x⌋) p.2 hfxw hp2
      have h2 : sqDist x y p.1 p.2 ≤ sqDist x y (Int.toNat ⌊x⌋) p.2 :=
        (heatmapVal_le_iff x y hs0 (Int.toNat ⌊x⌋) p.2 p.1 p.2).mp h1
      have h3 : ((p.1 : ℚ) - x) ^ 2 ≤ ((Int.toNat ⌊x⌋ : ℚ) - x) ^ 2 := by
        unfold sqDist at h2
        linarith
      have h4 : ((p.1 : ℚ) - x) ^ 2 ≤ 1 := le_trans h3 hfx1
      nlinarith [abs_nonneg ((p.1 : ℚ) - x), sq_abs ((p.1 : ℚ) - x)]
    · have h1 := hmax p.1 (Int.toNat ⌊y⌋) hp1 hfyh
      have h2 : sqDist x y p.1 p.2 ≤ sqDist x y p.1 (Int.toNat ⌊y⌋) :=
        (heatmapVal_le_iff x y hs0 p.1 (Int.toNat ⌊y⌋) p.1 p.2).mp h1
      have h3 : ((p.2 : ℚ) - y) ^ 2 ≤ ((Int.toNat ⌊y⌋ : ℚ) - y) ^ 2 := by
        unfold sqDist at h2
        linarith
      have h4 : ((p.2 : ℚ) - y) ^ 2 ≤ 1 := le_trans h3 hfy1
      nlinarith [abs_nonneg ((p.2 : ℚ) - y), sq_abs ((p.2 : ℚ) - y)]

/-- Witness for C1 at `w = h = 2`, `sigma = 1`, `(x, y) = (1/2, 1/2)`. -/
theorem C1_round_trip_witness :
    ((0 < 2 ∧ (1 : ℚ) ≤ 1) ∧ (0 : ℚ) ≤ 1 / 2 ∧ (1 / 2 : ℚ) < (2 : ℕ)) ∧
      ((∃ p, IsFirstArgmax 2 2 (heatmapVal 1 (1 / 2) (1 / 2)) p) ∧
        ∀ p, IsFirstArgmax 2 2 (heatmapVal 1 (1 / 2) (1 / 2)) p →
          |(p.1 : ℚ) - 1 / 2| ≤ 1 ∧ |(p.2 : ℚ) - 1 / 2| ≤ 1) :=
  ⟨⟨⟨by norm_num, by norm_num⟩, by norm_num, by norm_num⟩,
    C1_round_trip 2 2 1 (1 / 2) (1 / 2) (by norm_num) (by norm_num) (by norm_num)
      (by norm_num) (by norm_num) (by norm_num) (by norm_num)⟩

/-- C2: on every non-empty rectangular grid of finite values, the decoder
returns the cell of maximum value, breaking ties in favour of the least
row-major flat index, and returns that cell's integer `(column, row)` pair as
the coordinate together with that cell's value as the confidence. -/
theorem C2_decode_first_max (g : List (List ℚ)) (hne : g ≠ [])
    (hw : 0 < gridWidth g) (hrect : ∀ r ∈ g, r.length = gridWidth g) :
    ∃ xp yp c, heatmap_to_coordinates ltq g = some ((xp, yp), c) ∧
      xp < gridWidth g ∧ yp < g.length ∧ cellAt g xp yp = some c ∧
      (∀ (i j : ℕ) (v : ℚ), cellAt g i j = some v → v ≤ c) ∧
      (∀ (i j : ℕ) (v : ℚ), cellAt g i j = some v → v = c →
        rmIndex (gridWidth g) (xp, yp) ≤ rmIndex (gridWidth g) (i, j)) := by
  have hlen : g.flatten.length = g.length * gridWidth g := flatten_length_rect _ g hrect
  have hpos : 0 < g.length := List.length_pos.mpr hne
  have hfl : g.flatten ≠ [] := by
    have hlp : 0 < g.flatten.length := by
      rw [hlen]
      exact Nat.mul_pos hpos hw
    exact List.ne_nil_of_length_pos hlp
  obtain ⟨kv, hkv⟩ : ∃ kv, scanMax ltq g.flatten = some kv := by
    cases hsc : scanMax ltq g.flatten with
    | none => exact absurd ((scanMax_eq_none_iff _ _).mp hsc) hfl
    | some kv => exact ⟨kv, rfl⟩
  obtain ⟨k, c⟩ := kv
  obtain ⟨hget, hmax, hfirst⟩ := scanMax_ltq_spec g.flatten k c hkv
  have hk : k < g.flatten.length := (List.getElem?_eq_some_iff.mp hget).1
  have hklen : k < g.length * gridWidth g := by rwa [hlen] at hk
  have hxp : k % gridWidth g < gridWidth g := Nat.mod_lt _ hw
  have hyp : k / gridWidth g < g.length := (Nat.div_lt_iff_lt_mul hw).mpr hklen
  have hdm : (k / gridWidth g) * gridWidth g + k % gridWidth g = k := by
    rw [Nat.mul_comm]
    exact Nat.div_add_mod k (gridWidth g)
  have hcell : cellAt g (k % gridWidth g) (k / gridWidth g) = some c := by
    rw [← flatten_get_rect (gridWidth g) g (k % gridWidth g) (k / gridWidth g) hrect hxp, hdm]
    exact hget
  refine ⟨k % gridWidth g, k / gridWidth g, c, ?_, hxp, hyp, hcell, ?_, ?_⟩
  · unfold heatmap_to_coordinates
    rw [hkv]
  · intro i j v hv
    obtain ⟨r, hrj, hri⟩ := cellAt_bounds hv
    have hrmem : r ∈ g := List.getElem?_mem hrj
    have hiw : i < gridWidth g := by
      rw [← hrect r hrmem]
      exact (List.getElem?_eq_some_iff.mp hri).1
    have hflat : g.flatten[j * gridWidth g + i]? = some v := by
      rw [flatten_get_rect (gridWidth g) g i j hrect hiw]
      exact hv
    exact hmax _ v hflat
  · intro i j v hv hvc
    obtain ⟨r, hrj, hri⟩ := cellAt_bounds hv
    have hrmem : r ∈ g := List.getElem?_mem hrj
    have hiw : i < gridWidth g := by
      rw [← hrect r hrmem]
      exact (List.getElem?_eq_some_iff.mp hri).1
    have hflat : g.flatten[j * gridWidth g + i]? = some v := by
      rw [flatten_get_rect (gridWidth g) g i j hrect hiw]
      exact hv
    have hk_le : k ≤ j * gridWidth g + i := hfirst _ v hflat hvc
    unfold rmIndex
    rw [hdm]
    exact hk_le

/-- Witness for C2 on the concrete grid `[[0, 1], [1, 0]]` (the decoder
returns `some ((1, 0), 1)` there: the first of the two maximal cells in
row-major order). -/
theorem C2_decode_first_max_witness :
    (([[0, 1], [1, 0]] : List (List ℚ)) ≠ [] ∧
      0 < gridWidth ([[0, 1], [1, 0]] : List (List ℚ)) ∧
      ∀ r ∈ ([[0, 1], [1, 0]] : List (List ℚ)),
        r.length = gridWidth ([[0, 1], [1, 0]] : List (List ℚ))) ∧
      (∃ xp yp c,
        heatmap_to_coordinates ltq ([[0, 1], [1, 0]] : List (List ℚ)) = some ((xp, yp), c) ∧
        xp < gridWidth ([[0, 1], [1, 0]] : List (List ℚ)) ∧
        yp < ([[0, 1], [1, 0]] : List (List ℚ)).length ∧
        cellAt ([[0, 1], [1, 0]] : List (List ℚ)) xp yp = some c ∧
        (∀ (i j : ℕ) (v : ℚ), cellAt ([[0, 1], [1, 0]] : List (List ℚ)) i j = some v → v ≤ c) ∧
        (∀ (i j : ℕ) (v : ℚ), cellAt ([[0, 1], [1, 0]] : List (List ℚ)) i j = some v → v = c →
          rmIndex (gridWidth ([[0, 1], [1, 0]] : List (List ℚ))) (xp, yp) ≤
            rmIndex (gridWidth ([[0, 1], [1, 0]] : List (List ℚ))) (i, j))) :=
  ⟨⟨by decide, by decide, by decide⟩,
    C2_decode_first_max [[0, 1], [1, 0]] (by decide) (by decide) (by decide)⟩

/-- C3, counterexample to "the maximum value equals 1": with `sigma = 1` and
the in-bounds coordinate `(1/2, 0)` on a `1 × 1` grid, the single — hence
maximal — heatmap cell has value `exp(-1/8) < 1`. -/
theorem C3_counterexample : heatmapVal 1 (1 / 2) 0 0 0 < 1 := by
  rw [heatmapVal_eq_exp, Real.exp_lt_one_iff]
  have hsq : sqDist (1 / 2) 0 0 0 = 1 / 4 := by
    unfold sqDist
    norm_num
  rw [hsq]
  norm_num

/-- C3 amended: for every coordinate inside the grid and every `sigma > 0`,
the heatmap's maximum is attained at the grid cell nearest the coordinate;
the peak value is at most 1, with equality exactly when the coordinate
coincides with that grid cell (an integral coordinate). -/
theorem C3_amended (sigma x y : ℚ) (w h : ℕ) (hw : 0 < w) (hh : 0 < h)
    (hs : 0 < sigma) (hx0 : 0 ≤ x) (hxw : x < w) (hy0 : 0 ≤ y) (hyh : y < h) :
    nearestIdx x w < w ∧ nearestIdx y h < h ∧
      (∀ i j, i < w → j < h →
        heatmapVal sigma x y i j ≤ heatmapVal sigma x y (nearestIdx x w) (nearestIdx y h)) ∧
      heatmapVal sigma x y (nearestIdx x w) (nearestIdx y h) ≤ 1 ∧
      (heatmapVal sigma x y (nearestIdx x w) (nearestIdx y h) = 1 ↔
        ((nearestIdx x w : ℚ) = x ∧ (nearestIdx y h : ℚ) = y)) := by
  have hs0 : sigma ≠ 0 := ne_of_gt hs
  have hsR : (sigma : ℝ) ≠ 0 := by exact_mod_cast hs0
  have hc : (0 : ℝ) < 2 * (sigma : ℝ) ^ 2 := by positivity
  obtain ⟨hxlt, hxmin⟩ := nearestIdx_spec x w hw hx0 hxw
  obtain ⟨hylt, hymin⟩ := nearestIdx_spec y h hh hy0 hyh
  refine ⟨hxlt, hylt, ?_, ?_, ?_⟩
  · intro i j hi hj
    apply (heatmapVal_le_iff x y hs0 i j _ _).mpr
    unfold sqDist
    have h1 := hxmin i hi
    have h2 := hymin j hj
    linarith
  · rw [heatmapVal_eq_exp, Real.exp_le_one_iff]
    have hd := sqDist_nonneg x y (nearestIdx x w) (nearestIdx y h)
    have hd' : (0 : ℝ) ≤ ((sqDist x y (nearestIdx x w) (nearestIdx y h) : ℚ) : ℝ) := by
      exact_mod_cast hd
    exact div_nonpos_of_nonpos_of_nonneg (by linarith) (le_of_lt hc)
  · rw [heatmapVal_eq_exp, Real.exp_eq_one_iff]
    constructor
    · intro h0
      have hdz : ((sqDist x y (nearestIdx x w) (nearestIdx y h) : ℚ) : ℝ) = 0 := by
        rcases div_eq_zero_iff.mp h0 with h1 | h2
        · linarith [neg_eq_zero.mp h1]
        · exact absurd h2 (ne_of_gt hc)
      have hdq : sqDist x y (nearestIdx x w) (nearestIdx y h) = 0 := by exact_mod_cast hdz
      unfold sqDist at hdq
      have ha2 : ((nearestIdx x w : ℚ) - x) ^ 2 = 0 := by
        nlinarith [sq_nonneg ((nearestIdx x w : ℚ) - x), sq_nonneg ((nearestIdx y h : ℚ) - y)]
      have hb2 : ((nearestIdx y h : ℚ) - y) ^ 2 = 0 := by
        nlinarith [sq_nonneg ((nearestIdx x w : ℚ) - x), sq_nonneg ((nearestIdx y h : ℚ) - y)]
      have ha : (nearestIdx x w : ℚ) - x = 0 := (pow_eq_zero_iff (by norm_num)).mp ha2
      have hb : (nearestIdx y h : ℚ) - y = 0 := (pow_eq_zero_iff (by norm_num)).mp hb2
      exact ⟨by linarith, by linarith⟩
    · rintro ⟨hxeq, hyeq⟩
      have hz : sqDist x y (nearestIdx x w) (nearestIdx y h) = 0 := by
        unfold sqDist
        rw [hxeq, hyeq]
        ring
      rw [hz]
      norm_num

/-- Witness for the amended C3 at `w = h = 2`, `sigma = 1`, `(x, y) = (1, 0)`
(an integral in-bounds coordinate, where the peak equals 1). -/
theorem C3_amended_witness :
    ((0 < 2 ∧ (0 : ℚ) < 1) ∧ (0 : ℚ) ≤ 1 ∧ (1 : ℚ) < (2 : ℕ) ∧ (0 : ℚ) < (2 : ℕ)) ∧
      (nearestIdx 1 2 < 2 ∧ nearestIdx 0 2 < 2 ∧
        (∀ i j, i < 2 → j < 2 →
          heatmapVal 1 1 0 i j ≤ heatmapVal 1 1 0 (nearestIdx 1 2) (nearestIdx 0 2)) ∧
        heatmapVal 1 1 0 (nearestIdx 1 2) (nearestIdx 0 2) ≤ 1 ∧
        (heatmapVal 1 1 0 (nearestIdx 1 2) (nearestIdx 0 2) = 1 ↔
          ((nearestIdx 1 2 : ℚ) = 1 ∧ (nearestIdx 0 2 : ℚ) = 0))) :=
  ⟨⟨⟨by norm_num, by norm_num⟩, by norm_num, by norm_num, by norm_num⟩,
    C3_amended 1 1 0 2 2 (by norm_num) (by norm_num) (by norm_num) (by norm_num)
      (by norm_num) (by norm_num) (by norm_num)⟩

/-! ## Claims about the dataset splitter -/

theorem split_annotations_eq {α : Type} (shuffle : List α → List α) (items : List α)
    (t v : ℚ) :
    split_annotations shuffle items t v =
      ((shuffle items).take (Int.toNat ⌊((shuffle items).length : ℚ) * t⌋),
        ((shuffle items).drop (Int.toNat ⌊((shuffle items).length : ℚ) * t⌋)).take
          (Int.toNat ⌊((shuffle items).length : ℚ) * v⌋),
        (shuffle items).drop
          (Int.toNat ⌊((shuffle items).length : ℚ) * t⌋ +
            Int.toNat ⌊((shuffle items).length : ℚ) * v⌋)) := rfl

theorem take_take_drop_concat {α : Type} (k : List α) (a b : ℕ) :
    k.take a ++ (k.drop a).take b ++ k.drop (a + b) = k := by
  rw [← List.drop_drop, List.append_assoc, List.take_append_drop, List.take_append_drop]

/-- C4: `split_annotations` returns three contiguous blocks of the
deterministically shuffled key list, of sizes `⌊n·t⌋`, `⌊n·v⌋` and the
remainder; the blocks are pairwise disjoint and their concatenation is a
permutation of the input.  The shuffle is any permutation of the input (the
seeded `random.shuffle` produces a fixed one per seed). -/
theorem C4_split {α : Type} (shuffle : List α → List α) (items : List α)
    (train_r val_r : ℚ) (hperm : (shuffle items).Perm items) (hnd : items.Nodup)
    (ht0 : 0 ≤ train_r) (hv0 : 0 ≤ val_r) (htv : train_r + val_r ≤ 1) :
    (split_annotations shuffle items train_r val_r).1.length =
        Int.toNat ⌊(items.length : ℚ) * train_r⌋ ∧
      (split_annotations shuffle items train_r val_r).2.1.length =
        Int.toNat ⌊(items.length : ℚ) * val_r⌋ ∧
      (split_annotations shuffle items train_r val_r).2.2.length =
        items.length - (split_annotations shuffle items train_r val_r).1.length -
          (split_annotations shuffle items train_r val_r).2.1.length ∧
      ((split_annotations shuffle items train_r val_r).1 ++
        (split_annotations shuffle items train_r val_r).2.1 ++
        (split_annotations shuffle items train_r val_r).2.2).Perm items ∧
      (split_annotations shuffle items train_r val_r).1.Disjoint
        (split_annotations shuffle items train_r val_r).2.1 ∧
      (split_annotations shuffle items train_r val_r).1.Disjoint
        (split_annotations shuffle items train_r val_r).2.2 ∧
      (split_annotations shuffle items train_r val_r).2.1.Disjoint
        (split_annotations shuffle items train_r val_r).2.2 := by
  classical
  rw [split_annotations_eq]
  have hlen : (shuffle items).length = items.length := hperm.length_eq
  rw [hlen]
  set n := items.length with hn
  set keys := shuffle items with hkeys
  set a := Int.toNat ⌊(n : ℚ) * train_r⌋ with ha
  set b := Int.toNat ⌊(n : ℚ) * val_r⌋ with hb
  have hfa0 : 0 ≤ ⌊(n : ℚ) * train_r⌋ := Int.floor_nonneg.mpr (mul_nonneg (by positivity) ht0)
  have hfb0 : 0 ≤ ⌊(n : ℚ) * val_r⌋ := Int.floor_nonneg.mpr (mul_nonneg (by positivity) hv0)
  have hsum : ⌊(n : ℚ) * train_r⌋ + ⌊(n : ℚ) * val_r⌋ ≤ (n : ℤ) := by
    have h1 : ((⌊(n : ℚ) * train_r⌋ + ⌊(n : ℚ) * val_r⌋ : ℤ) : ℚ) ≤
        (n : ℚ) * train_r + (n : ℚ) * val_r := by
      push_cast
      have hf1 := Int.floor_le ((n : ℚ) * train_r)
      have hf2 := Int.floor_le ((n : ℚ) * val_r)
      linarith
    have h2 : (n : ℚ) * train_r + (n : ℚ) * val_r ≤ (n : ℚ) := by
      have h3 : (n : ℚ) * (train_r + val_r) ≤ (n : ℚ) * 1 :=
        mul_le_mul_of_nonneg_left htv (by positivity)
      nlinarith
    have h4 : ((⌊(n : ℚ) * train_r⌋ + ⌊(n : ℚ) * val_r⌋ : ℤ) : ℚ) ≤ ((n : ℤ) : ℚ) := by
      push_cast at h1 ⊢
      linarith
    exact_mod_cast h4
  have hab : a + b ≤ n := by omega
  have hkl : keys.length = n := hlen
  have hl1 : (keys.take a).length = a := by
    rw [List.length_take]
    omega
  have hl2 : ((keys.drop a).take b).length = b := by
    rw [List.length_take, List.length_drop]
    omega
  have hl3 : (keys.drop (a + b)).length = n - a - b := by
    rw [List.length_drop]
    omega
  have hconcat : keys.take a ++ (keys.drop a).take b ++ keys.drop (a + b) = keys :=
    take_take_drop_concat keys a b
  have hknd : keys.Nodup := hperm.symm.nodup hnd
  have hnd3 : (keys.take a ++ ((keys.drop a).take b ++ keys.drop (a + b))).Nodup := by
    rw [← List.append_assoc, hconcat]
    exact hknd
  rw [List.nodup_append] at hnd3
  obtain ⟨hnd_tr, hnd_rest, hdj_tr⟩ := hnd3
  rw [List.nodup_append] at hnd_rest
  obtain ⟨hnd_va, hnd_te, hdj_va_te⟩ := hnd_rest
  rw [List.disjoint_append_right] at hdj_tr
  refine ⟨hl1, hl2, by rw [hl3, hl1, hl2], ?_, hdj_tr.1, hdj_tr.2, hdj_va_te⟩
  rw [hconcat]
  exact hperm

/-- Witness for C4 on the ten-element input `[0..9]` with the default ratios
`0.70` and `0.15` and the identity shuffle: the block sizes are the claimed
`7`, `1`, `2`. -/
theorem C4_split_witness :
    ((@id (List ℕ) [0, 1, 2, 3, 4, 5, 6, 7, 8, 9]).Perm [0, 1, 2, 3, 4, 5, 6, 7, 8, 9] ∧
      ([0, 1, 2, 3, 4, 5, 6, 7, 8, 9] : List ℕ).Nodup ∧
      (0 : ℚ) ≤ 7 / 10 ∧ (0 : ℚ) ≤ 3 / 20 ∧ (7 / 10 : ℚ) + 3 / 20 ≤ 1) ∧
      ((split_annotations id [0, 1, 2, 3, 4, 5, 6, 7, 8, 9] (7 / 10) (3 / 20)).1.length =
          Int.toNat ⌊(([0, 1, 2, 3, 4, 5, 6, 7, 8, 9] : List ℕ).length : ℚ) * (7 / 10)⌋ ∧
        (split_annotations id [0, 1, 2, 3, 4, 5, 6, 7, 8, 9] (7 / 10) (3 / 20)).2.1.length =
          Int.toNat ⌊(([0, 1, 2, 3, 4, 5, 6, 7, 8, 9] : List ℕ).length : ℚ) * (3 / 20)⌋ ∧
        (split_annotations id [0, 1, 2, 3, 4, 5, 6, 7, 8, 9] (7 / 10) (3 / 20)).2.2.length =
          ([0, 1, 2, 3, 4, 5, 6, 7, 8, 9] : List ℕ).length -
            (split_annotations id [0, 1, 2, 3, 4, 5, 6, 7, 8, 9] (7 / 10) (3 / 20)).1.length -
            (split_annotations id [0, 1, 2, 3, 4, 5, 6, 7, 8, 9] (7 / 10) (3 / 20)).2.1.length ∧
        ((split_annotations id [0, 1, 2, 3, 4, 5, 6, 7, 8, 9] (7 / 10) (3 / 20)).1 ++
          (split_annotations id [0, 1, 2, 3, 4, 5, 6, 7, 8, 9] (7 / 10) (3 / 20)).2.1 ++
          (split_annotations id [0, 1, 2, 3, 4, 5, 6, 7, 8, 9] (7 / 10) (3 / 20)).2.2).Perm
            [0, 1, 2, 3, 4, 5, 6, 7, 8, 9] ∧
        (split_annotations id [0, 1, 2, 3, 4, 5, 6, 7, 8, 9] (7 / 10) (3 / 20)).1.Disjoint
          (split_annotations id [0, 1, 2, 3, 4, 5, 6, 7, 8, 9] (7 / 10) (3 / 20)).2.1 ∧
        (split_annotations id [0, 1, 2, 3, 4, 5, 6, 7, 8, 9] (7 / 10) (3 / 20)).1.Disjoint
          (split_annotations id [0, 1, 2, 3, 4, 5, 6, 7, 8, 9] (7 / 10) (3 / 20)).2.2 ∧
        (split_annotations id [0, 1, 2, 3, 4, 5, 6, 7, 8, 9] (7 / 10) (3 / 20)).2.1.Disjoint
          (split_annotations id [0, 1, 2, 3, 4, 5, 6, 7, 8, 9] (7 / 10) (3 / 20)).2.2) ∧
      (Int.toNat ⌊((10 : ℕ) : ℚ) * (7 / 10)⌋ = 7 ∧
        Int.toNat ⌊((10 : ℕ) : ℚ) * (3 / 20)⌋ = 1 ∧ (10 : ℕ) - 7 - 1 = 2) :=
  ⟨⟨List.Perm.refl _, by decide, by norm_num, by norm_num, by norm_num⟩,
    C4_split id [0, 1, 2, 3, 4, 5, 6, 7, 8, 9] (7 / 10) (3 / 20) (List.Perm.refl _)
      (by decide) (by norm_num) (by norm_num) (by norm_num),
    by rw [show ⌊((10 : ℕ) : ℚ) * (7 / 10)⌋ = 7 by norm_num]; rfl,
    by rw [show ⌊((10 : ℕ) : ℚ) * (3 / 20)⌋ = 1 by norm_num]; rfl, by norm_num⟩

/-- C5 fails as stated: `split_annotations` has no small-input branch and
signals nothing.  On the two-element input `[0, 1]` with the default ratios it
returns the ordinary three-way partition `([0], [], [1])`. -/
theorem C5_counterexample :
    split_annotations id [0, 1] (7 / 10) (3 / 20) = ([0], [], [1]) := by
  rw [split_annotations_eq]
  have hl : (@id (List ℕ) [0, 1]).length = 2 := rfl
  rw [hl]
  have h1 : Int.toNat ⌊((2 : ℕ) : ℚ) * (7 / 10)⌋ = 1 := by norm_num
  have h2 : Int.toNat ⌊((2 : ℕ) : ℚ) * (3 / 20)⌋ = 0 := by norm_num
  rw [h1, h2]
  decide

/-- C5 amended: for inputs of fewer than 3 items `split_annotations` does not
signal an error; it returns three blocks by the same floor arithmetic, and
their concatenation is still a permutation of the input (for two items and the
default ratios the sizes are train 1, val 0, test 1; smaller inputs put
everything in the test block). -/
theorem C5_amended {α : Type} (shuffle : List α → List α) (items : List α)
    (hperm : (shuffle items).Perm items) (hlen : items.length < 3) :
    ((split_annotations shuffle items (7 / 10) (3 / 20)).1 ++
      (split_annotations shuffle items (7 / 10) (3 / 20)).2.1 ++
      (split_annotations shuffle items (7 / 10) (3 / 20)).2.2).Perm items := by
  rw [split_annotations_eq]
  have hconcat := take_take_drop_concat (shuffle items)
    (Int.toNat ⌊((shuffle items).length : ℚ) * (7 / 10)⌋)
    (Int.toNat ⌊((shuffle items).length : ℚ) * (3 / 20)⌋)
  rw [hconcat]
  exact hperm

/-- Witness for the amended C5 on the two-element input `[0, 1]`. -/
theorem C5_amended_witness :
    ((@id (List ℕ) [0, 1]).Perm [0, 1] ∧ ([0, 1] : List ℕ).length < 3) ∧
      ((split_annotations id [0, 1] (7 / 10) (3 / 20)).1 ++
        (split_annotations id [0, 1] (7 / 10) (3 / 20)).2.1 ++
        (split_annotations id [0, 1] (7 / 10) (3 / 20)).2.2).Perm [0, 1] :=
  ⟨⟨List.Perm.refl _, by decide⟩,
    C5_amended id [0, 1] (List.Perm.refl _) (by decide)⟩

/-! ## Claims about decoding errors (C7) -/

/-- C7 fails as stated: the decoder performs no validation at all.  On the
`1 × 1` grid whose single cell is NaN it silently returns the location
`(0, 0)` with NaN confidence instead of signalling `InvalidHeatmap`. -/
theorem C7_counterexample :
    heatmap_to_coordinates FVal.lt [[FVal.nan]] = some ((0, 0), FVal.nan) := rfl

/-- C7 amended: the decoder validates nothing.  It fails to produce a result
exactly on zero-area grids — the flattening is empty and the underlying
`max`/`argmax` reduction has nothing to return (modelled `none`) — while a
grid containing non-finite values is decoded like any other grid (see the NaN
counterexample) and is never signalled. -/
theorem C7_amended {α : Type} (lt : α → α → Bool) (g : List (List α)) :
    heatmap_to_coordinates lt g = none ↔ g.flatten = [] := by
  unfold heatmap_to_coordinates
  cases hsc : scanMax lt g.flatten with
  | none =>
    have hfl : g.flatten = [] := (scanMax_eq_none_iff lt g.flatten).mp hsc
    simp [hfl]
  | some kv =>
    obtain ⟨k, v⟩ := kv
    constructor
    · intro hc
      exact Option.noConfusion hc
    · intro hfl
      rw [hfl] at hsc
      simp [scanMax] at hsc

/-! ## Claims about augmentation (C8, C9) -/

/-- C8: the clamp invariant.  For every image size with positive width and
height, every combination of random draws (whether or not any randomized step
fired) and every input coordinate, the landmark produced by
`_apply_augmentation` lies in `[0, w - 1] × [0, h - 1]`. -/
theorem C8_clamp (w h : ℕ) (hw : 1 ≤ w) (hh : 1 ≤ h) (d : AugDraws) (p : ℝ × ℝ) :
    0 ≤ (augment_landmark w h d p).1 ∧ (augment_landmark w h d p).1 ≤ (w : ℝ) - 1 ∧
      0 ≤ (augment_landmark w h d p).2 ∧ (augment_landmark w h d p).2 ≤ (h : ℝ) - 1 := by
  have hw1 : (0 : ℝ) ≤ (w : ℝ) - 1 := by
    have hwc : (1 : ℝ) ≤ (w : ℝ) := by exact_mod_cast hw
    linarith
  have hh1 : (0 : ℝ) ≤ (h : ℝ) - 1 := by
    have hhc : (1 : ℝ) ≤ (h : ℝ) := by exact_mod_cast hh
    linarith
  simp only [augment_landmark, clamp_landmark]
  exact ⟨le_max_left _ _, max_le hw1 (min_le_left _ _), le_max_left _ _,
    max_le hh1 (min_le_left _ _)⟩

/-- Witness for C8 at `w = h = 1` with no step firing and the out-of-bounds
input `(5, -3)`. -/
theorem C8_clamp_witness :
    (1 ≤ 1 ∧ 1 ≤ 1) ∧
      (0 ≤ (augment_landmark 1 1 ⟨false, 0, false, 1, false⟩ ((5 : ℝ), (-3 : ℝ))).1 ∧
        (augment_landmark 1 1 ⟨false, 0, false, 1, false⟩ ((5 : ℝ), (-3 : ℝ))).1 ≤
          ((1 : ℕ) : ℝ) - 1 ∧
        0 ≤ (augment_landmark 1 1 ⟨false, 0, false, 1, false⟩ ((5 : ℝ), (-3 : ℝ))).2 ∧
        (augment_landmark 1 1 ⟨false, 0, false, 1, false⟩ ((5 : ℝ), (-3 : ℝ))).2 ≤
          ((1 : ℕ) : ℝ) - 1) :=
  ⟨⟨le_refl 1, le_refl 1⟩,
    C8_clamp 1 1 (le_refl 1) (le_refl 1) ⟨false, 0, false, 1, false⟩ (5, -3)⟩

/-- C9: the horizontal-flip landmark map sends `x` to `w - x` — which differs
from the standard `w - 1 - x` — leaves `y` unchanged, and is an involution:
applying it twice restores the coordinate exactly. -/
theorem C9_flip (w : ℕ) (p : ℝ × ℝ) :
    (flip_landmark w p).1 = (w : ℝ) - p.1 ∧
      (flip_landmark w p).1 ≠ (w : ℝ) - 1 - p.1 ∧
      (flip_landmark w p).2 = p.2 ∧
      flip_landmark w (flip_landmark w p) = p := by
  refine ⟨rfl, ?_, rfl, ?_⟩
  · intro hc
    unfold flip_landmark at hc
    simp only at hc
    linarith
  · unfold flip_landmark
    rw [Prod.ext_iff]
    constructor
    · simp
    · rfl

/-! ## Claims about evaluation metrics (C6, C10) -/

theorem map_fst_range_pair {β : Type} (n : ℕ) (f : ℕ → β) :
    ((List.range n).map (fun i => (i, f i))).map Prod.fst = List.range n := by
  rw [List.map_map]
  have hfun : (Prod.fst ∘ fun i : ℕ => (i, f i)) = id := rfl
  rw [hfun, List.map_id]

/-- C6 fails as stated: the metrics block of `evaluate_model` does not signal
on empty input — `np.mean` of an empty list yields NaN with a warning — so it
returns a report whose MRE is NaN (modelled `none`); in particular the MRE is
not reported as zero. -/
theorem C6_counterexample :
    (evaluate_metrics []).mre = none ∧ (evaluate_metrics []).mre ≠ some 0 := by
  refine ⟨rfl, ?_⟩
  intro hc
  rw [show (evaluate_metrics []).mre = none from rfl] at hc
  exact Option.noConfusion hc

/-- C6 amended: `evaluate` of the empty sample list does not signal an error;
it returns a report in which the MRE, the standard deviation, every SDR
percentage, and every per-landmark entry are NaN (modelled `none`) — not a
zero-valued report. -/
theorem C6_amended :
    evaluate_metrics [] =
      { mre := none, std := none,
        sdr := [(2, none), (4, none), (10, none), (20, none)],
        per_landmark_mre := (List.range NUM_LANDMARKS).map (fun i => (i, none)) } := rfl

/-- C10 fails as stated on the key set: the per-landmark mapping produced by
`evaluate_model` is keyed by the 0-based loop indices `0 .. 18`, so on a
non-empty input the configured 1-based landmark index 19 does not appear as a
key (the mapping does have exactly 19 entries). -/
theorem C10_counterexample :
    ((evaluate_metrics [⟨0, 0, 0, 0, 0⟩]).per_landmark_mre.map Prod.fst =
        List.range 19) ∧
      19 ∉ (evaluate_metrics [⟨0, 0, 0, 0, 0⟩]).per_landmark_mre.map Prod.fst := by
  have hkeys : (evaluate_metrics [⟨0, 0, 0, 0, 0⟩]).per_landmark_mre.map Prod.fst =
      List.range 19 :=
    map_fst_range_pair NUM_LANDMARKS
      (fun i => npMean ((([⟨0, 0, 0, 0, 0⟩] : List EvalSample).filter
        (fun s => s.landmark = i)).map radialError))
  refine ⟨hkeys, ?_⟩
  rw [hkeys]
  intro hmem
  rw [List.mem_range] at hmem
  omega

/-- C10 amended: for every non-empty evaluation input, the per-landmark MRE
mapping has exactly `NUM_LANDMARKS = 19` entries, keyed by the 0-based
landmark indices `0 .. 18` in order, and an index with zero observed samples
is still present, with the NaN sentinel (`none`) as its value, rather than
being omitted. -/
theorem C10_amended (samples : List EvalSample) (hne : samples ≠ []) :
    (evaluate_metrics samples).per_landmark_mre.length = NUM_LANDMARKS ∧
      (evaluate_metrics samples).per_landmark_mre.map Prod.fst =
        List.range NUM_LANDMARKS ∧
      ∀ i, i < NUM_LANDMARKS → (∀ s ∈ samples, s.landmark ≠ i) →
        (i, (none : Option ℝ)) ∈ (evaluate_metrics samples).per_landmark_mre := by
  refine ⟨?_, ?_, ?_⟩
  · show ((List.range NUM_LANDMARKS).map _).length = NUM_LANDMARKS
    rw [List.length_map, List.length_range]
  · exact map_fst_range_pair NUM_LANDMARKS
      (fun i => npMean ((samples.filter (fun s => s.landmark = i)).map radialError))
  · intro i hi hnone
    have hfil : samples.filter (fun s => s.landmark = i) = [] := by
      rw [List.filter_eq_nil]
      intro s hs
      simpa using hnone s hs
    show (i, (none : Option ℝ)) ∈ (List.range NUM_LANDMARKS).map
      (fun j => (j, npMean ((samples.filter (fun s => s.landmark = j)).map radialError)))
    rw [List.mem_map]
    refine ⟨i, List.mem_range.mpr hi, ?_⟩
    rw [hfil]
    rfl

/-- Witness for the amended C10 on a one-sample input (landmark 0; every other
index then has zero samples and reports the NaN sentinel). -/
theorem C10_amended_witness :
    (([⟨0, 0, 0, 0, 0⟩] : List EvalSample) ≠ []) ∧
      ((evaluate_metrics [⟨0, 0, 0, 0, 0⟩]).per_landmark_mre.length = NUM_LANDMARKS ∧
        (evaluate_metrics [⟨0, 0, 0, 0, 0⟩]).per_landmark_mre.map Prod.fst =
          List.range NUM_LANDMARKS ∧
        ∀ i, i < NUM_LANDMARKS →
          (∀ s ∈ ([⟨0, 0, 0, 0, 0⟩] : List EvalSample), s.landmark ≠ i) →
          (i, (none : Option ℝ)) ∈ (evaluate_metrics [⟨0, 0, 0, 0, 0⟩]).per_landmark_mre) :=
  ⟨List.cons_ne_nil _ _, C10_amended _ (List.cons_ne_nil _ _)⟩

end Ceph
